import Mathlib

/-!
Verification development for the `stock-bot` fetch pipeline.

The definitions below are a shallow embedding of the Python sources:
  * `src/fetchers/sse/fetcher.py`  — pagination engine (`SseFetcher`)
  * `src/fetchers/sse/client.py`   — transport client (`SseCommonQueryClient`)
  * `src/normalizers/sse.py`       — record normalizer
  * `src/models/{stock,config,manifest}.py` — data models
  * `src/storage/universe.py`      — snapshot writer / manifest builder
  * `src/cli/universe.py`          — CLI glue (manifest statistics)

JSON scalar values are modelled by `JsonVal` (the fields this pipeline
inspects are strings, numbers or null); raw API records are association
lists of field name to value; machine floats that only flow through the
pipeline (delays, timeouts, durations) are modelled as rationals.
-/

namespace StockBot

/-! ## JSON scalar values and raw records -/

/-- A scalar JSON value as it appears in a record field of the SSE
`commonQuery.do` payload (string, number or null). -/
inductive JsonVal where
  | str : String → JsonVal
  | num : Int → JsonVal
  | null : JsonVal
deriving DecidableEq, Repr

/-- A raw record from the API: a Python `dict` of field name to value,
modelled as an association list (keys unique, first binding wins). -/
abbrev RawRecord := List (String × JsonVal)

/-- `record.get(key)`: first binding of `key`, if any. -/
def getField : RawRecord → String → Option JsonVal
  | [], _ => none
  | (k, v) :: rest, key => if k = key then some v else getField rest key

/-- Python truthiness of a scalar JSON value (`bool(v)`). -/
def truthy : JsonVal → Bool
  | .str s => s != ""
  | .num n => n != 0
  | .null => false

/-- Whether the value equals the sentinel string `"-"`. -/
def isDash : JsonVal → Bool
  | .str s => s == "-"
  | _ => false

/-- One candidate step of `SseFetcher._get_symbol`:
`symbol = record.get(f); if symbol and symbol != "-": return symbol`. -/
def tryCode (r : RawRecord) (f : String) : Option JsonVal :=
  match getField r f with
  | some v => if truthy v && !isDash v then some v else none
  | none => none

/-- `SseFetcher._get_symbol`: extract the stock symbol with priority
`A_STOCK_CODE > B_STOCK_CODE > COMPANY_CODE`, skipping empty/`"-"` values. -/
def get_symbol (r : RawRecord) : Option JsonVal :=
  match tryCode r "A_STOCK_CODE" with
  | some v => some v
  | none =>
    match tryCode r "B_STOCK_CODE" with
    | some v => some v
    | none => tryCode r "COMPANY_CODE"

/-- The fields declared on `RawSseRecord` (models/stock.py); each is typed
`str | None`, every other field is allowed through by `extra = "allow"`. -/
def declaredFields : List String :=
  ["A_STOCK_CODE", "B_STOCK_CODE", "COMPANY_CODE", "SEC_NAME_CN",
   "SEC_NAME_FULL", "COMPANY_ABBR", "FULL_NAME", "FULL_NAME_IN_ENGLISH",
   "COMPANY_ABBR_EN", "STOCK_TYPE", "LIST_BOARD", "LIST_DATE", "DELIST_DATE",
   "CSRC_CODE", "CSRC_CODE_DESC", "AREA_NAME", "AREA_NAME_DESC",
   "STATE_CODE", "STATE_CODE_STOCK", "PRODUCT_STATUS", "NUM"]

/-- Pydantic acceptance of one value for a `str | None` field: strings and
null validate, numbers are rejected (no number-to-string coercion). -/
def scalarOk : JsonVal → Bool
  | .str _ => true
  | .null => true
  | .num _ => false

/-- `RawSseRecord.model_validate(raw_data)` succeeds: every declared field
that is present holds a string or null; extra fields are always allowed. -/
def validates (r : RawRecord) : Bool :=
  declaredFields.all fun f =>
    match getField r f with
    | some v => scalarOk v
    | none => true

/-! ## Engine state (`FetchProgress`) and record processing -/

/-- A sampled error entry (projection of the dicts appended to
`progress.errors`: the discriminating `type` tag and the page number). -/
structure ErrorSample where
  etype : String
  page : Nat
deriving DecidableEq, Repr

/-- `FetchProgress` plus the loop-local `consecutive_empty` counter of
`SseFetcher.iter_raw_records` (wall-clock fields omitted). -/
structure EngState where
  page_no : Nat := 0
  total_records : Nat := 0
  unique_symbols : List JsonVal := []
  failed_pages : Nat := 0
  errors : List ErrorSample := []
  consecutive_empty : Nat := 0
deriving DecidableEq, Repr

/-- `SseFetcher.MAX_CONSECUTIVE_FAILURES`. -/
def MAX_CONSECUTIVE_FAILURES : Nat := 3

/-- `SseFetcher.MAX_PAGES`. -/
def MAX_PAGES : Nat := 500

/-- `SseFetcher.MAX_ERROR_SAMPLES`. -/
def MAX_ERROR_SAMPLES : Nat := 10

/-- `if len(progress.errors) < MAX_ERROR_SAMPLES: progress.errors.append(e)`. -/
def pushError (st : EngState) (e : ErrorSample) : EngState :=
  if st.errors.length < MAX_ERROR_SAMPLES then { st with errors := st.errors ++ [e] }
  else st

/-- The per-record body of the `for raw_data in records` loop: symbol
extraction, dedup against `unique_symbols`, counter update, schema
validation; returns the new state and the yielded record, if any. -/
def processRecord (st : EngState) (r : RawRecord) : EngState × Option RawRecord :=
  match get_symbol r with
  | none => (st, none)
  | some sym =>
    if sym ∈ st.unique_symbols then (st, none)
    else
      let st1 := { st with
        unique_symbols := sym :: st.unique_symbols,
        total_records := st.total_records + 1 }
      if validates r then (st1, some r)
      else (pushError st1 ⟨"parse_error", st1.page_no⟩, none)

/-- Processing of one page's record list, in order, threading the state and
collecting the yielded records. -/
def processRecords : EngState → List RawRecord → EngState × List RawRecord
  | st, [] => (st, [])
  | st, r :: rest =>
    let p := processRecord st r
    let q := processRecords p.1 rest
    (q.1, p.2.toList ++ q.2)

/-! ## Stop conditions (`SseFetcher._should_stop`) -/

/-- The pagination metadata fields `_should_stop` reads from `page_help`. -/
structure PageHelp where
  totalPages : Option JsonVal := none
  totalPage : Option JsonVal := none
  total : Option JsonVal := none
deriving DecidableEq, Repr

/-- Python `a or b` on two optional dict lookups: the first operand if it
is truthy, otherwise the second. -/
def pyOrVal (a b : Option JsonVal) : Option JsonVal :=
  match a with
  | some v => if truthy v then some v else b
  | none => b

/-- Python `int(v)` on a scalar JSON value, `none` when it raises
(`ValueError`/`TypeError`), as caught by `_should_stop`. -/
def jsonToInt : JsonVal → Option Int
  | .num n => some n
  | .str s => s.toInt?
  | .null => none

/-- Stop check 1: `totalPages`/`totalPage` metadata reached. -/
def metaStopPages (ph : PageHelp) (page_no : Nat) : Bool :=
  match pyOrVal ph.totalPages ph.totalPage with
  | none => false
  | some v =>
    match jsonToInt v with
    | none => false
    | some n => (page_no : Int) ≥ n

/-- Stop check 2: `total` records metadata reached by `total_records`. -/
def metaStopTotal (ph : PageHelp) (total_records : Nat) : Bool :=
  match ph.total with
  | none => false
  | some v =>
    match jsonToInt v with
    | none => false
    | some n => (total_records : Int) ≥ n

/-- `SseFetcher._should_stop`.  The source checks the six conditions in this
order, returning `True` at the first satisfied one; as every branch returns
`True`, that is the disjunction below. -/
def should_stop (pageSize : Nat) (records : List RawRecord) (ph : PageHelp)
    (st : EngState) (consecutiveEmpty : Nat) : Bool :=
  metaStopPages ph st.page_no ||
  metaStopTotal ph st.total_records ||
  records.isEmpty ||
  decide (records.length < pageSize) ||
  decide (consecutiveEmpty ≥ MAX_CONSECUTIVE_FAILURES) ||
  decide (st.page_no ≥ MAX_PAGES)

/-! ## The pagination loop (`SseFetcher.iter_raw_records`) -/

/-- Outcome of `client.get_page_data(page_no)`: either a record list plus
metadata, or an exception (`SseApiError` when `isApiError`, any other
exception otherwise — both failure branches behave identically up to the
sampled error tag). -/
inductive PageResult where
  | success (records : List RawRecord) (pageHelp : PageHelp)
  | failure (isApiError : Bool)
deriving DecidableEq, Repr

/-- Whether a page fetch raised. -/
def PageResult.isFail : PageResult → Bool
  | .failure _ => true
  | .success _ _ => false

/-- Result of a (partial) run: final progress state, the concatenated
stream of raw records the engine iterated over (in fetch order), and the
records it yielded downstream. -/
structure RunResult where
  state : EngState
  processed : List RawRecord
  outputs : List RawRecord
deriving DecidableEq, Repr

/-- State at the top of a successful iteration: `progress.page_no += 1`
followed by `consecutive_empty = 0`. -/
def succState (st : EngState) : EngState :=
  { st with page_no := st.page_no + 1, consecutive_empty := 0 }

/-- State after an `except` branch of the loop: `progress.page_no += 1`,
`consecutive_empty += 1`, `progress.failed_pages += 1`, and the error
sample appended (tagged `api_error` for `SseApiError`,
`unexpected_error` otherwise). -/
def failStep (st : EngState) (isApi : Bool) : EngState :=
  pushError
    { st with
      page_no := st.page_no + 1,
      consecutive_empty := st.consecutive_empty + 1,
      failed_pages := st.failed_pages + 1 }
    ⟨if isApi then "api_error" else "unexpected_error", st.page_no + 1⟩

/-- The `while True` pagination loop of `iter_raw_records`, starting from
an arbitrary progress state.  `pages n` is the outcome of fetching page
`n`; `fuel` bounds the number of iterations (the theorems quantify over
it — every property below holds for every fuel). -/
def iterRawRecordsFrom (pageSize : Nat) (pages : Nat → PageResult) :
    Nat → EngState → RunResult
  | 0, st => ⟨st, [], []⟩
  | fuel + 1, st =>
    match pages (st.page_no + 1) with
    | .success recs ph =>
      let p := processRecords (succState st) recs
      if should_stop pageSize recs ph p.1 p.1.consecutive_empty then
        ⟨p.1, recs, p.2⟩
      else
        let r := iterRawRecordsFrom pageSize pages fuel p.1
        ⟨r.state, recs ++ r.processed, p.2 ++ r.outputs⟩
    | .failure isApi =>
      let st1 := failStep st isApi
      if st1.consecutive_empty ≥ MAX_CONSECUTIVE_FAILURES then ⟨st1, [], []⟩
      else iterRawRecordsFrom pageSize pages fuel st1

/-- A full run: `iter_raw_records` starts from a fresh `FetchProgress`. -/
def iterRawRecords (pageSize : Nat) (pages : Nat → PageResult) (fuel : Nat) :
    RunResult :=
  iterRawRecordsFrom pageSize pages fuel {}

/-! ## Normalizer (`normalizers/sse.py`) -/

/-- The validated `RawSseRecord` fields read by `normalize_sse_record`
(each `str | None` after pydantic validation). -/
structure RawSseRecordM where
  A_STOCK_CODE : Option String := none
  B_STOCK_CODE : Option String := none
  COMPANY_CODE : Option String := none
  SEC_NAME_CN : Option String := none
  SEC_NAME_FULL : Option String := none
  COMPANY_ABBR : Option String := none
  FULL_NAME : Option String := none
  LIST_DATE : Option String := none
  CSRC_CODE : Option String := none
  CSRC_CODE_DESC : Option String := none
  AREA_NAME_DESC : Option String := none
  STATE_CODE_STOCK : Option String := none
deriving DecidableEq, Repr

/-- The normalized `StockRecord` (models/stock.py), with the timestamp as
an abstract tick. -/
structure StockRecordM where
  exchange : String
  symbol : String
  name : String
  full_name : Option String
  category : String
  list_date : Option String
  csrc_code : Option String
  csrc_desc : Option String
  province : Option String
  status : Option String
  source_url : String
  asof : Nat
  raw : Option RawSseRecordM
deriving DecidableEq, Repr

/-- Python truthiness of a `str | None` value. -/
def strTruthy : Option String → Bool
  | some s => s != ""
  | none => false

/-- The normalizer's symbol rejection test `if not symbol or symbol == "-"`. -/
def notUsableSym (o : Option String) : Bool :=
  !strTruthy o || o == some "-"

/-- Association-list lookup on string maps. -/
def lookupStr : List (String × String) → String → Option String
  | [], _ => none
  | (k, v) :: rest, key => if k = key then some v else lookupStr rest key

/-- `STOCK_TYPE_MAP` from normalizers/sse.py. -/
def STOCK_TYPE_MAP : List (String × String) :=
  [("1", "主板A股"), ("2", "主板B股"), ("8", "科创板")]

/-- `normalize_sse_record`: symbol priority chain with the `"-"` sentinel,
name priority chain with symbol fallback, `full_name` via Python `or`,
category derived from the `STOCK_TYPE` filter; raises (`.error`) when no
symbol candidate is usable. -/
def normalize_sse_record (raw : RawSseRecordM) (source_url : String)
    (asof : Nat) (stock_type : String) (include_raw : Bool) :
    Except String StockRecordM :=
  let symbol0 := raw.A_STOCK_CODE
  let symbol1 := if notUsableSym symbol0 then raw.B_STOCK_CODE else symbol0
  let symbol2 := if notUsableSym symbol1 then raw.COMPANY_CODE else symbol1
  if notUsableSym symbol2 then
    .error "Cannot extract symbol from record"
  else
    let symbol := symbol2.getD ""
    let name0 := raw.SEC_NAME_CN
    let name1 := if strTruthy name0 then name0 else raw.COMPANY_ABBR
    let name2 := if strTruthy name1 then name1 else raw.SEC_NAME_FULL
    let name := if strTruthy name2 then name2.getD "" else symbol
    let full_name := if strTruthy raw.FULL_NAME then raw.FULL_NAME else raw.SEC_NAME_FULL
    let category :=
      match lookupStr STOCK_TYPE_MAP stock_type with
      | some label => "STOCK_TYPE_" ++ stock_type ++ "_" ++ label
      | none => "STOCK_TYPE_" ++ stock_type
    .ok {
      exchange := "Shanghai_Stocks"
      symbol := symbol
      name := name
      full_name := full_name
      category := category
      list_date := raw.LIST_DATE
      csrc_code := raw.CSRC_CODE
      csrc_desc := raw.CSRC_CODE_DESC
      province := raw.AREA_NAME_DESC
      status := raw.STATE_CODE_STOCK
      source_url := source_url
      asof := asof
      raw := if include_raw then some raw else none }

/-- Claim-side view: symbol candidates, in priority order, with `None`
entries removed. -/
def symbolCandidates (raw : RawSseRecordM) : List String :=
  raw.A_STOCK_CODE.toList ++ (raw.B_STOCK_CODE.toList ++ raw.COMPANY_CODE.toList)

/-- Claim-side view: the first symbol candidate that is non-empty and not
the `"-"` sentinel. -/
def claimedSymbol (raw : RawSseRecordM) : Option String :=
  (symbolCandidates raw).find? fun s => decide (s ≠ "") && decide (s ≠ "-")

/-- Claim-side view: name candidates, in priority order. -/
def nameCandidates (raw : RawSseRecordM) : List String :=
  raw.SEC_NAME_CN.toList ++ (raw.COMPANY_ABBR.toList ++ raw.SEC_NAME_FULL.toList)

/-- Claim-side view: first non-empty name candidate, falling back to the
symbol. -/
def claimedName (raw : RawSseRecordM) (symbol : String) : String :=
  ((nameCandidates raw).find? fun s => decide (s ≠ "")).getD symbol

/-! ## Configuration, snapshot writer, manifest (`models/config.py`,
`storage/universe.py`, `models/manifest.py`, `cli/universe.py`) -/

/-- `SseConfig`, flattened (nested pagination / rate-limit / retry models
inlined as fields). -/
structure SseConfigM where
  endpoint : String := "https://query.sse.com.cn/sseQuery/commonQuery.do"
  query : List (String × String) := []
  filters : List (String × String) := []
  page_size : Nat := 25
  cache_size : Nat := 1
  headers : List (String × String) := []
  cookies : List (String × String) := []
  requests_per_second : ℚ := 2
  page_delay : ℚ := 1/2
  max_attempts : Nat := 3
  backoff_multiplier : ℚ := 2
  initial_delay : ℚ := 1
  timeout : ℚ := 30
deriving DecidableEq, Repr

/-- ASCII lowercasing of one character (Python `str.lower` on the header
names this code compares, which are ASCII). -/
def lowerChar (c : Char) : Char :=
  if 65 ≤ c.toNat ∧ c.toNat ≤ 90 then Char.ofNat (c.toNat + 32) else c

/-- Python `s.lower()`. -/
def pyLower (s : String) : String :=
  String.mk (s.toList.map lowerChar)

/-- `SseConfig.get_safe_headers`: drop every header whose name lowercases
to `"cookie"`. -/
def get_safe_headers (cfg : SseConfigM) : List (String × String) :=
  cfg.headers.filter fun kv => decide (pyLower kv.1 ≠ "cookie")

/-- The in-memory counters of `SnapshotWriter`. -/
structure WriterState where
  category_counts : List (String × Nat) := []
  total_count : Nat := 0
deriving DecidableEq, Repr

/-- `_safe_filename`: replace path-unsafe characters by `_`. -/
def safe_filename (s : String) : String :=
  s.map fun c =>
    if c ∈ ['/', '\\', ':', '*', '?', '"', '<', '>', '|'] then '_' else c

/-- Insertion of a string into a `≤`-sorted list (for `sorted(files)`). -/
def insertSorted (x : String) : List String → List String
  | [] => [x]
  | y :: rest => if x ≤ y then x :: y :: rest else y :: insertSorted x rest

/-- Sort a list of strings (Python `sorted`). -/
def sortStrings : List String → List String
  | [] => []
  | x :: rest => insertSorted x (sortStrings rest)

/-- `SnapshotWriter.get_output_files`: one `exchange/class=<cat>.jsonl`
path per written category, sorted. -/
def writer_output_files (w : WriterState) (exchange : String) : List String :=
  sortStrings (w.category_counts.map fun kv =>
    exchange ++ "/class=" ++ safe_filename kv.1 ++ ".jsonl")

/-- `FetchStats` (models/manifest.py). -/
structure FetchStatsM where
  total_pages : Nat
  total_records : Nat
  unique_records : Nat
  failed_pages : Nat
  retry_count : Nat
  duration_seconds : ℚ
  categories : List (String × Nat)
deriving DecidableEq, Repr

/-- `UniverseManifest` (models/manifest.py); nested config dicts inlined.
The model has no cookies field, and `to_safe_dict`/`write_manifest`
serialize exactly these fields. -/
structure UniverseManifestM where
  exchange : String
  asof : Nat
  version : String := "1.0"
  endpoint : String
  query_params : List (String × String)
  filters : List (String × String)
  pagination_page_size : Nat
  pagination_cache_size : Nat
  headers : List (String × String)
  rate_limit_rps : ℚ
  rate_limit_page_delay : ℚ
  retry_max_attempts : Nat
  retry_backoff_multiplier : ℚ
  retry_initial_delay : ℚ
  timeout : ℚ
  stats : FetchStatsM
  errors : List ErrorSample
  output_files : List String
deriving DecidableEq, Repr

/-- `UniverseStorage.build_manifest`: all statistics come from the writer's
single total count; `total_pages` is left `0` ("Will be set by caller"). -/
def build_manifest (exchange : String) (asof : Nat) (cfg : SseConfigM)
    (writer : WriterState) (duration_seconds : ℚ) (failed_pages : Nat)
    (errors : List ErrorSample) : UniverseManifestM :=
  { exchange := exchange
    asof := asof
    endpoint := cfg.endpoint
    query_params := cfg.query
    filters := cfg.filters
    pagination_page_size := cfg.page_size
    pagination_cache_size := cfg.cache_size
    headers := get_safe_headers cfg
    rate_limit_rps := cfg.requests_per_second
    rate_limit_page_delay := cfg.page_delay
    retry_max_attempts := cfg.max_attempts
    retry_backoff_multiplier := cfg.backoff_multiplier
    retry_initial_delay := cfg.initial_delay
    timeout := cfg.timeout
    stats := {
      total_pages := 0
      total_records := writer.total_count
      unique_records := writer.total_count
      failed_pages := failed_pages
      retry_count := 0
      duration_seconds := duration_seconds
      categories := writer.category_counts }
    errors := errors
    output_files := writer_output_files writer exchange }

/-- The CLI's manifest patch (cli/universe.py line 161):
`manifest.stats.total_pages = fetcher.client._last_request_time > 0 and 1 or 0`
— a boolean-to-int coercion on the client's last-request timestamp. -/
def cli_total_pages_stat (last_request_time : ℚ) : Nat :=
  if last_request_time > 0 then 1 else 0

/-- The manifest as the CLI writes it: `build_manifest` output with
`stats.total_pages` overwritten by the coercion above. -/
def cli_set_total_pages (m : UniverseManifestM) (last_request_time : ℚ) :
    UniverseManifestM :=
  { m with stats := { m.stats with total_pages := cli_total_pages_stat last_request_time } }

/-! ## Transport client retry (`client.py _make_request` with tenacity) -/

/-- Outcome of one HTTP attempt inside `_do_request`: success, a transient
failure (`httpx.TimeoutException` / `httpx.NetworkError` — the only types
in `retry_if_exception_type`), or an HTTP status error raised by
`response.raise_for_status()`. -/
inductive AttemptOutcome where
  | ok
  | transient
  | httpStatus
deriving DecidableEq, Repr

/-- Result propagated out of `_make_request`: a response, or the exception
of the last attempt (with `reraise=True`). -/
inductive ReqResult where
  | ok
  | failed (e : AttemptOutcome)
deriving DecidableEq, Repr

/-- What a `_make_request` call did: how many attempts were issued, the
backoff delays slept between them, and the propagated result. -/
structure RequestTrace where
  attemptsMade : Nat
  delays : List ℚ
  result : ReqResult
deriving DecidableEq, Repr

/-- tenacity's `wait_exponential(multiplier, min)` with the default
`exp_base = 2`: the sleep before retrying attempt `attemptNumber + 1` is
`multiplier * 2 ^ attemptNumber`, clamped below by `min` (the huge default
upper clamp is omitted).  The source instantiates
`multiplier := retry.backoff_multiplier` and `min := retry.initial_delay`. -/
def tenacityWaitExponential (multiplier minDelay : ℚ) (attemptNumber : Nat) : ℚ :=
  max minDelay (multiplier * 2 ^ attemptNumber)

/-- The tenacity-driven retry loop of `_make_request`, from the 1-based
attempt number `attempt` with `remaining` attempts still allowed by
`stop_after_attempt(max_attempts)`.  Only `transient` outcomes are
retried; with `reraise=True` the exhausted final failure propagates. -/
def makeRequestFrom (outcomes : Nat → AttemptOutcome) (mult minD : ℚ) :
    Nat → Nat → RequestTrace
  | _, 0 => ⟨0, [], .failed .transient⟩
  | attempt, 1 =>
    match outcomes attempt with
    | .ok => ⟨attempt, [], .ok⟩
    | .httpStatus => ⟨attempt, [], .failed .httpStatus⟩
    | .transient => ⟨attempt, [], .failed .transient⟩
  | attempt, remaining + 2 =>
    match outcomes attempt with
    | .ok => ⟨attempt, [], .ok⟩
    | .httpStatus => ⟨attempt, [], .failed .httpStatus⟩
    | .transient =>
      let d := tenacityWaitExponential mult minD attempt
      let rest := makeRequestFrom outcomes mult minD (attempt + 1) (remaining + 1)
      ⟨rest.attemptsMade, d :: rest.delays, rest.result⟩

/-- `_make_request`: up to `max_attempts` attempts starting at attempt 1. -/
def make_request (outcomes : Nat → AttemptOutcome) (max_attempts : Nat)
    (backoff_multiplier initial_delay : ℚ) : RequestTrace :=
  makeRequestFrom outcomes backoff_multiplier initial_delay 1 max_attempts

/-- The delay schedule the spec describes: start at `initial_delay` and
multiply by `backoff_multiplier` on each successive attempt. -/
def claimedBackoffDelay (multiplier initialDelay : ℚ) (attemptNumber : Nat) : ℚ :=
  initialDelay * multiplier ^ (attemptNumber - 1)

/-! ## JSONP parsing (`client.py _parse_jsonp`) -/

/-- Python `\s` on the relevant ASCII range (space, tab, LF, CR, vertical
tab, form feed). -/
def isWS (c : Char) : Bool :=
  c == ' ' || c == '\t' || c == '\n' || c == '\r' || c == '\x0b' || c == '\x0c'

/-- Python `\w` on the ASCII range: letters, digits, underscore. -/
def isWordChar (c : Char) : Bool :=
  c.isAlphanum || c == '_'

/-- Whether `p` is an initial segment of `l`. -/
def leadsWith : List Char → List Char → Bool
  | [], _ => true
  | _ :: _, [] => false
  | a :: as, b :: bs => a == b && leadsWith as bs

/-- Whether `needle` occurs contiguously inside `hay` (Python `in`). -/
def occursIn (needle : List Char) : List Char → Bool
  | [] => leadsWith needle []
  | c :: rest => leadsWith needle (c :: rest) || occursIn needle rest

/-- Python `needle in hay` on strings. -/
def containsSub (needle hay : String) : Bool :=
  occursIn needle.toList hay.toList

/-- Python `hay.startswith(p)`. -/
def pyStartsWith (p hay : String) : Bool :=
  leadsWith p.toList hay.toList

/-- Python `text[:500]` (the diagnostic snippet truncation). -/
def pySlice500 (s : String) : String :=
  String.mk (s.toList.take 500)

/-- Strip one leading `;` (the `;?` of the pattern, seen from the end). -/
def dropSemi : List Char → List Char
  | ';' :: t => t
  | l => l

/-- Require a leading `)` (the `\)` of the pattern, seen from the end) and
return the group read back in forward order. -/
def stripCloseParen : List Char → Option (List Char)
  | ')' :: t => some t.reverse
  | _ => none

/-- Match `(.*)\s*\);?\s*$` (DOTALL, greedy group) against `r3`: strip
trailing whitespace, an optional `;`, then a required `)`; the group is
everything before that final `)`. -/
def tailMatch (r3 : List Char) : Option (List Char) :=
  stripCloseParen (dropSemi (r3.reverse.dropWhile isWS))

/-- The common tail of both JSONP regexes after the callback name:
`\s*\(\s*(.*)\s*\);?\s*$` with `re.DOTALL`, on the remaining characters.
The greedy group runs up to the final `)` that is followed only by an
optional `;` and trailing whitespace. -/
def afterCallback (rest : List Char) : Option (List Char) :=
  match rest.dropWhile isWS with
  | '(' :: r2 => tailMatch (r2.dropWhile isWS)
  | _ => none

/-- The exact pattern `^{re.escape(callback_name)}\s*\(\s*(.*)\s*\);?\s*$`. -/
def exactExtract (cb text : List Char) : Option (List Char) :=
  if leadsWith cb text then afterCallback (text.drop cb.length) else none

/-- The lenient fallback pattern `^\w+\s*\(\s*(.*)\s*\);?\s*$`. -/
def lenientExtract (text : List Char) : Option (List Char) :=
  match text.takeWhile isWordChar with
  | [] => none
  | _ :: _ => afterCallback (text.drop (text.takeWhile isWordChar).length)

/-- The four distinguishable `SseApiError` shapes `_parse_jsonp` raises,
each carrying its truncated diagnostic snippet. -/
inductive JsonpError where
  | systemError (snippet : String)
  | htmlError (snippet : String)
  | matchFailure (snippet : String)
  | jsonFailure (snippet : String)
deriving DecidableEq, Repr

/-- The snippet carried by a `_parse_jsonp` error. -/
def JsonpError.snippet : JsonpError → String
  | .systemError s => s
  | .htmlError s => s
  | .matchFailure s => s
  | .jsonFailure s => s

/-- Python `text.strip()`: drop whitespace from both ends. -/
def pyStrip (s : String) : String :=
  String.mk (((s.toList.dropWhile isWS).reverse.dropWhile isWS).reverse)

/-- `SseCommonQueryClient._parse_jsonp`, parametric in the payload type and
in `json.loads` (`jsonLoads g = none` models `json.JSONDecodeError`):
strip, fail fast on the server-busy markers and on HTML error pages, unwrap
by exact callback match with lenient fallback, then parse the interior. -/
def parse_jsonp {α : Type} (jsonLoads : String → Option α)
    (text callback_name : String) : Except JsonpError α :=
  let t := pyStrip text
  if containsSub "System Error" t || containsSub "系统繁忙" t then
    .error (.systemError (pySlice500 t))
  else if pyStartsWith "<!" t || pyStartsWith "<html" t then
    .error (.htmlError (pySlice500 t))
  else
    let m := match exactExtract callback_name.toList t.toList with
      | some g => some g
      | none => lenientExtract t.toList
    match m with
    | none => .error (.matchFailure (pySlice500 t))
    | some g =>
      let gs := String.mk g
      match jsonLoads gs with
      | some j => .ok j
      | none => .error (.jsonFailure (pySlice500 gs))

/-! ## Derived notions used by the claim statements -/

/-- Whether record `r` carries the business key `k`. -/
def keyIs (k : JsonVal) (r : RawRecord) : Bool :=
  decide (get_symbol r = some k)

/-- What first-occurrence-wins dedup should emit for key `k` out of a
record stream: the first record carrying `k`, if it passes schema
validation; nothing otherwise. -/
def firstValidOut (k : JsonVal) (rs : List RawRecord) : List RawRecord :=
  match rs.find? (keyIs k) with
  | some r => if validates r then [r] else []
  | none => []

/-! ## Concrete runs used as counterexamples and witnesses -/

/-- A record with key `600000` that fails `RawSseRecord` validation
(`SEC_NAME_CN` holds a number, not a string). -/
def c1Bad : RawRecord := [("A_STOCK_CODE", .str "600000"), ("SEC_NAME_CN", .num 5)]

/-- A valid record with the same key `600000`. -/
def c1Good : RawRecord := [("A_STOCK_CODE", .str "600000"), ("SEC_NAME_CN", .str "PuFa")]

/-- One page whose first record for key `600000` fails validation and
whose second record for the same key is valid. -/
def c1Pages : Nat → PageResult := fun _ => .success [c1Bad, c1Good] ⟨none, none, none⟩

/-- A state that has already seen key `600000`. -/
def c1Seen : EngState := { unique_symbols := [.str "600000"] }

/-- A valid record with the already-seen key `600000`. -/
def c1Dup : RawRecord := [("A_STOCK_CODE", .str "600000")]

/-- Two failing pages followed by a successful but empty page. -/
def c2Pages : Nat → PageResult :=
  fun n => if n ≤ 2 then .failure true else .success [] ⟨none, none, none⟩

/-- All pages fail. -/
def c2AllFail : Nat → PageResult := fun _ => .failure true

/-- A record used to build a full success page. -/
def c2Rec : RawRecord := [("A_STOCK_CODE", .str "600100")]

/-- Two failing pages followed by a full one-record success page (for
page size 1). -/
def c2Resume : Nat → PageResult :=
  fun n => if n ≤ 2 then .failure true else .success [c2Rec] ⟨none, none, none⟩

/-- An empty success page whose metadata claims many more pages and
records. -/
def c3Pages : Nat → PageResult :=
  fun _ => .success [] ⟨some (.num 99), none, some (.num 99999)⟩

def c5r1 : RawRecord := [("A_STOCK_CODE", .str "600000")]

def c5r2 : RawRecord := [("A_STOCK_CODE", .str "600001")]

def c5r3 : RawRecord := [("A_STOCK_CODE", .str "600002")]

/-- A run of exactly two pages for page size 2: a full first page, then a
short second page. -/
def c5Pages : Nat → PageResult :=
  fun n =>
    if n = 1 then .success [c5r1, c5r2] ⟨none, none, none⟩
    else .success [c5r3] ⟨none, none, none⟩

/-- A configuration carrying a credential-bearing `Authorization` header
and a cookie. -/
def c6Config : SseConfigM :=
  { headers := [("Authorization", "Bearer secret-token")],
    cookies := [("session", "abc")] }

/-- A configuration with one innocuous header. -/
def c6Safe : SseConfigM :=
  { headers := [("Accept", "application/json")],
    cookies := [("session", "abc")] }

/-- A record with key `600009` that fails validation. -/
def c10Bad : RawRecord := [("A_STOCK_CODE", .str "600009"), ("SEC_NAME_CN", .num 7)]

/-- A valid record with the same key `600009`. -/
def c10Good : RawRecord := [("A_STOCK_CODE", .str "600009"), ("SEC_NAME_CN", .str "Valid")]

/-- One page: an invalid first occurrence of key `600009`, then a valid
duplicate. -/
def c10Pages : Nat → PageResult := fun _ => .success [c10Bad, c10Good] ⟨none, none, none⟩

/-! ## Lemmas about record processing -/

@[simp]
theorem pushError_unique_symbols (st : EngState) (e : ErrorSample) :
    (pushError st e).unique_symbols = st.unique_symbols := by
  unfold pushError; split <;> rfl

@[simp]
theorem pushError_total_records (st : EngState) (e : ErrorSample) :
    (pushError st e).total_records = st.total_records := by
  unfold pushError; split <;> rfl

@[simp]
theorem pushError_page_no (st : EngState) (e : ErrorSample) :
    (pushError st e).page_no = st.page_no := by
  unfold pushError; split <;> rfl

@[simp]
theorem pushError_consecutive_empty (st : EngState) (e : ErrorSample) :
    (pushError st e).consecutive_empty = st.consecutive_empty := by
  unfold pushError; split <;> rfl

theorem keyIs_eq_true {k : JsonVal} {r : RawRecord} :
    keyIs k r = true ↔ get_symbol r = some k := by
  simp [keyIs]

/-- A record whose key was already seen is skipped with the state (and so
the seen-set and all counters) unchanged. -/
theorem processRecord_dup {st : EngState} {r : RawRecord} {k : JsonVal}
    (h1 : get_symbol r = some k) (h2 : k ∈ st.unique_symbols) :
    processRecord st r = (st, none) := by
  unfold processRecord
  rw [h1]
  simp [h2]

/-- Key membership after processing one record. -/
theorem processRecord_seen_mem (st : EngState) (r : RawRecord) (x : JsonVal) :
    x ∈ (processRecord st r).1.unique_symbols ↔
      x ∈ st.unique_symbols ∨ get_symbol r = some x := by
  unfold processRecord
  cases h : get_symbol r with
  | none => simp [h]
  | some k =>
    by_cases hk : k ∈ st.unique_symbols
    · simp only [if_pos hk, h, Option.some.injEq]
      constructor
      · exact fun hx => Or.inl hx
      · rintro (hx | hx)
        · exact hx
        · exact hx ▸ hk
    · by_cases hv : validates r <;>
        simp [hk, hv, h, List.mem_cons, Option.some.injEq] <;> tauto

/-- Every yielded record is the record itself, with a fresh, valid key. -/
theorem processRecord_out {st : EngState} {r x : RawRecord}
    (h : (processRecord st r).2 = some x) :
    x = r ∧ validates r = true ∧
      ∃ k, get_symbol r = some k ∧ k ∉ st.unique_symbols := by
  unfold processRecord at h
  cases hs : get_symbol r with
  | none => rw [hs] at h; cases h
  | some k =>
    rw [hs] at h
    by_cases hk : k ∈ st.unique_symbols
    · simp [hk] at h
    · by_cases hv : validates r
      · simp only [if_neg hk, if_pos hv] at h
        exact ⟨(Option.some.inj h).symm, hv, k, rfl, hk⟩
      · simp [hk, hv] at h

@[simp]
theorem processRecord_consecutive_empty (st : EngState) (r : RawRecord) :
    (processRecord st r).1.consecutive_empty = st.consecutive_empty := by
  unfold processRecord
  cases get_symbol r with
  | none => rfl
  | some k =>
    by_cases hk : k ∈ st.unique_symbols
    · simp [hk]
    · by_cases hv : validates r <;> simp [hk, hv]

@[simp]
theorem processRecord_page_no (st : EngState) (r : RawRecord) :
    (processRecord st r).1.page_no = st.page_no := by
  unfold processRecord
  cases get_symbol r with
  | none => rfl
  | some k =>
    by_cases hk : k ∈ st.unique_symbols
    · simp [hk]
    · by_cases hv : validates r <;> simp [hk, hv]

/-- Processing a record with a fresh key: the key is marked seen and the
total count incremented unconditionally; the record is yielded exactly
when it validates. -/
theorem processRecord_fresh (st : EngState) (r : RawRecord) (k : JsonVal)
    (h1 : get_symbol r = some k) (h2 : k ∉ st.unique_symbols) :
    (processRecord st r).1.unique_symbols = k :: st.unique_symbols ∧
    (processRecord st r).1.total_records = st.total_records + 1 ∧
    (processRecord st r).2 = (if validates r then some r else none) := by
  unfold processRecord
  rw [h1]
  by_cases hv : validates r <;> simp [h2, hv]

/-- The seen-set only grows. -/
theorem processRecord_seen_sub (st : EngState) (r : RawRecord) :
    st.unique_symbols ⊆ (processRecord st r).1.unique_symbols :=
  fun _ hx => (processRecord_seen_mem st r _).mpr (Or.inl hx)

/-- Key membership after processing a record list. -/
theorem processRecords_seen_mem (rs : List RawRecord) :
    ∀ (st : EngState) (x : JsonVal),
      x ∈ (processRecords st rs).1.unique_symbols ↔
        x ∈ st.unique_symbols ∨ ∃ r ∈ rs, get_symbol r = some x := by
  induction rs with
  | nil => intro st x; simp [processRecords]
  | cons r rest ih =>
    intro st x
    have hq : (processRecords st (r :: rest)).1
        = (processRecords (processRecord st r).1 rest).1 := rfl
    rw [hq, ih, processRecord_seen_mem]
    simp only [List.mem_cons]
    constructor
    · rintro ((hx | hx) | ⟨r2, hr2, hg⟩)
      · exact Or.inl hx
      · exact Or.inr ⟨r, Or.inl rfl, hx⟩
      · exact Or.inr ⟨r2, Or.inr hr2, hg⟩
    · rintro (hx | ⟨r2, (hr2 | hr2), hg⟩)
      · exact Or.inl (Or.inl hx)
      · exact Or.inl (Or.inr (hr2 ▸ hg))
      · exact Or.inr ⟨r2, hr2, hg⟩

/-- Every record yielded out of a record list carries a key that was not
seen on entry. -/
theorem processRecords_out_fresh (rs : List RawRecord) :
    ∀ (st : EngState) (x : RawRecord), x ∈ (processRecords st rs).2 →
      ∃ k, get_symbol x = some k ∧ k ∉ st.unique_symbols := by
  induction rs with
  | nil => intro st x hx; simp [processRecords] at hx
  | cons r rest ih =>
    intro st x hx
    have hq : (processRecords st (r :: rest)).2
        = (processRecord st r).2.toList ++ (processRecords (processRecord st r).1 rest).2 := rfl
    rw [hq, List.mem_append] at hx
    rcases hx with hx | hx
    · cases hp : (processRecord st r).2 with
      | none => rw [hp] at hx; simp at hx
      | some y =>
        rw [hp] at hx
        simp at hx
        subst hx
        obtain ⟨hxr, _, k, hk, hkn⟩ := processRecord_out hp
        exact ⟨k, hxr ▸ hk, hkn⟩
    · obtain ⟨k, hk1, hk2⟩ := ih (processRecord st r).1 x hx
      exact ⟨k, hk1, fun hmem => hk2 (processRecord_seen_sub st r hmem)⟩

/-- First-occurrence-wins dedup, per key, over one record list: filtering
the yielded records by a key not yet seen gives exactly the first record
of the list with that key, provided it validates, and nothing otherwise. -/
theorem processRecords_filter (rs : List RawRecord) :
    ∀ (st : EngState) (k : JsonVal), k ∉ st.unique_symbols →
      ((processRecords st rs).2.filter (keyIs k)) = firstValidOut k rs := by
  induction rs with
  | nil => intro st k _; simp [processRecords, firstValidOut]
  | cons r rest ih =>
    intro st k hk
    have hq : (processRecords st (r :: rest)).2
        = (processRecord st r).2.toList ++ (processRecords (processRecord st r).1 rest).2 := rfl
    rw [hq, List.filter_append]
    by_cases hkr : get_symbol r = some k
    · have hkr' : keyIs k r = true := keyIs_eq_true.mpr hkr
      have hkseen : k ∈ (processRecord st r).1.unique_symbols :=
        (processRecord_seen_mem st r k).mpr (Or.inr hkr)
      have htail : ((processRecords (processRecord st r).1 rest).2.filter (keyIs k)) = [] := by
        rw [List.filter_eq_nil_iff]
        intro x hx hkx
        obtain ⟨k2, hk2, hk2n⟩ := processRecords_out_fresh rest _ x hx
        rw [keyIs_eq_true] at hkx
        rw [hkx] at hk2
        exact hk2n ((Option.some.inj hk2) ▸ hkseen)
      obtain ⟨_, _, hout⟩ := processRecord_fresh st r k hkr hk
      unfold firstValidOut
      rw [List.find?_cons_of_pos _ hkr', hout, htail]
      by_cases hv : validates r <;> simp [hv, hkr']
    · have hkr' : keyIs k r = false := by
        simp [keyIs, hkr]
      have hhead : ((processRecord st r).2.toList.filter (keyIs k)) = [] := by
        cases hp : (processRecord st r).2 with
        | none => simp
        | some y =>
          obtain ⟨hy, _, _⟩ := processRecord_out hp
          subst hy
          simp [hkr']
      have hknot : k ∉ (processRecord st r).1.unique_symbols := by
        rw [processRecord_seen_mem]
        rintro (h | h)
        · exact hk h
        · exact hkr h
      rw [hhead, ih _ k hknot]
      unfold firstValidOut
      rw [List.find?_cons_of_neg _ (by simp [hkr'])]
      simp

@[simp]
theorem processRecords_consecutive_empty (rs : List RawRecord) :
    ∀ st : EngState, (processRecords st rs).1.consecutive_empty = st.consecutive_empty := by
  induction rs with
  | nil => intro st; rfl
  | cons r rest ih =>
    intro st
    have hq : (processRecords st (r :: rest)).1
        = (processRecords (processRecord st r).1 rest).1 := rfl
    rw [hq, ih, processRecord_consecutive_empty]

@[simp]
theorem processRecords_page_no (rs : List RawRecord) :
    ∀ st : EngState, (processRecords st rs).1.page_no = st.page_no := by
  induction rs with
  | nil => intro st; rfl
  | cons r rest ih =>
    intro st
    have hq : (processRecords st (r :: rest)).1
        = (processRecords (processRecord st r).1 rest).1 := rfl
    rw [hq, ih, processRecord_page_no]

/-- `total_records` and the seen-set size move in lockstep through one
record. -/
theorem processRecord_count (st : EngState) (r : RawRecord)
    (h : st.total_records = st.unique_symbols.length) :
    (processRecord st r).1.total_records
      = (processRecord st r).1.unique_symbols.length := by
  unfold processRecord
  cases get_symbol r with
  | none => exact h
  | some k =>
    by_cases hk : k ∈ st.unique_symbols
    · simp [hk, h]
    · by_cases hv : validates r <;> simp [hk, hv, h]

/-- ... and through a record list. -/
theorem processRecords_count (rs : List RawRecord) :
    ∀ st : EngState, st.total_records = st.unique_symbols.length →
      (processRecords st rs).1.total_records
        = (processRecords st rs).1.unique_symbols.length := by
  induction rs with
  | nil => intro st h; exact h
  | cons r rest ih =>
    intro st h
    have hq : (processRecords st (r :: rest)).1
        = (processRecords (processRecord st r).1 rest).1 := rfl
    rw [hq]
    exact ih _ (processRecord_count st r h)

/-! ## Lemmas about the pagination loop -/

/-- `find?` over an append scans the left list first. -/
theorem find?_append {α : Type} (p : α → Bool) (l1 l2 : List α) :
    (l1 ++ l2).find? p
      = match l1.find? p with
        | some x => some x
        | none => l2.find? p := by
  induction l1 with
  | nil => simp
  | cons a rest ih =>
    by_cases ha : p a = true
    · simp [List.find?_cons_of_pos _ ha, ha]
    · simp only [List.cons_append, List.find?_cons_of_neg _ ha,
        List.find?_cons_of_neg _ ha]
      exact ih

@[simp]
theorem succState_unique_symbols (st : EngState) :
    (succState st).unique_symbols = st.unique_symbols := rfl

@[simp]
theorem succState_page_no (st : EngState) :
    (succState st).page_no = st.page_no + 1 := rfl

@[simp]
theorem succState_consecutive_empty (st : EngState) :
    (succState st).consecutive_empty = 0 := rfl

@[simp]
theorem succState_total_records (st : EngState) :
    (succState st).total_records = st.total_records := rfl

@[simp]
theorem failStep_unique_symbols (st : EngState) (isApi : Bool) :
    (failStep st isApi).unique_symbols = st.unique_symbols := by
  unfold failStep; simp

@[simp]
theorem failStep_page_no (st : EngState) (isApi : Bool) :
    (failStep st isApi).page_no = st.page_no + 1 := by
  unfold failStep; simp

@[simp]
theorem failStep_consecutive_empty (st : EngState) (isApi : Bool) :
    (failStep st isApi).consecutive_empty = st.consecutive_empty + 1 := by
  unfold failStep; simp

@[simp]
theorem failStep_total_records (st : EngState) (isApi : Bool) :
    (failStep st isApi).total_records = st.total_records := by
  unfold failStep; simp

/-- Unfolding one successful iteration of the loop. -/
theorem iterFrom_eq_success (pageSize : Nat) (pages : Nat → PageResult)
    (fuel : Nat) (st : EngState) {recs : List RawRecord} {ph : PageHelp}
    (hp : pages (st.page_no + 1) = .success recs ph) :
    iterRawRecordsFrom pageSize pages (fuel + 1) st =
      if should_stop pageSize recs ph (processRecords (succState st) recs).1 0 then
        ⟨(processRecords (succState st) recs).1, recs,
          (processRecords (succState st) recs).2⟩
      else
        ⟨(iterRawRecordsFrom pageSize pages fuel
            (processRecords (succState st) recs).1).state,
          recs ++ (iterRawRecordsFrom pageSize pages fuel
            (processRecords (succState st) recs).1).processed,
          (processRecords (succState st) recs).2 ++
            (iterRawRecordsFrom pageSize pages fuel
              (processRecords (succState st) recs).1).outputs⟩ := by
  conv_lhs => unfold iterRawRecordsFrom
  rw [hp]
  simp only [processRecords_consecutive_empty, succState_consecutive_empty]

/-- Unfolding one failed iteration of the loop. -/
theorem iterFrom_eq_failure (pageSize : Nat) (pages : Nat → PageResult)
    (fuel : Nat) (st : EngState) {isApi : Bool}
    (hp : pages (st.page_no + 1) = .failure isApi) :
    iterRawRecordsFrom pageSize pages (fuel + 1) st =
      if st.consecutive_empty + 1 ≥ MAX_CONSECUTIVE_FAILURES then
        ⟨failStep st isApi, [], []⟩
      else iterRawRecordsFrom pageSize pages fuel (failStep st isApi) := by
  conv_lhs => unfold iterRawRecordsFrom
  rw [hp]
  simp only [failStep_consecutive_empty]

/-- The loop never decreases the page counter. -/
theorem iterFrom_page_mono (pageSize : Nat) (pages : Nat → PageResult) :
    ∀ (fuel : Nat) (st : EngState),
      st.page_no ≤ (iterRawRecordsFrom pageSize pages fuel st).state.page_no := by
  intro fuel
  induction fuel with
  | zero => intro st; exact Nat.le_refl _
  | succ fuel ih =>
    intro st
    cases hp : pages (st.page_no + 1) with
    | success recs ph =>
      rw [iterFrom_eq_success pageSize pages fuel st hp]
      by_cases hstop : should_stop pageSize recs ph
          (processRecords (succState st) recs).1 0 = true
      · simp [hstop, processRecords_page_no]
      · simp only [hstop, if_false, Bool.false_eq_true]
        refine Nat.le_trans (Nat.le_succ st.page_no) ?_
        have := ih (processRecords (succState st) recs).1
        simpa [processRecords_page_no] using this
    | failure isApi =>
      rw [iterFrom_eq_failure pageSize pages fuel st hp]
      by_cases hstop : st.consecutive_empty + 1 ≥ MAX_CONSECUTIVE_FAILURES
      · simp [hstop]
      · simp only [hstop, if_false]
        refine Nat.le_trans (Nat.le_succ st.page_no) ?_
        have := ih (failStep st isApi)
        simpa using this

/-- With at least one unit of fuel, the loop requests at least one page. -/
theorem iterFrom_page_succ (pageSize : Nat) (pages : Nat → PageResult)
    (fuel : Nat) (st : EngState) :
    st.page_no + 1 ≤ (iterRawRecordsFrom pageSize pages (fuel + 1) st).state.page_no := by
  cases hp : pages (st.page_no + 1) with
  | success recs ph =>
    rw [iterFrom_eq_success pageSize pages fuel st hp]
    by_cases hstop : should_stop pageSize recs ph
        (processRecords (succState st) recs).1 0 = true
    · simp [hstop, processRecords_page_no]
    · simp only [hstop, if_false, Bool.false_eq_true]
      have := iterFrom_page_mono pageSize pages fuel (processRecords (succState st) recs).1
      simpa [processRecords_page_no] using this
  | failure isApi =>
    rw [iterFrom_eq_failure pageSize pages fuel st hp]
    by_cases hstop : st.consecutive_empty + 1 ≥ MAX_CONSECUTIVE_FAILURES
    · simp [hstop]
    · simp only [hstop, if_false]
      have := iterFrom_page_mono pageSize pages fuel (failStep st isApi)
      simpa using this

/-- Key membership in the final state, in terms of the processed stream. -/
theorem iterFrom_seen_mem (pageSize : Nat) (pages : Nat → PageResult) :
    ∀ (fuel : Nat) (st : EngState) (x : JsonVal),
      x ∈ (iterRawRecordsFrom pageSize pages fuel st).state.unique_symbols ↔
        x ∈ st.unique_symbols ∨
          ∃ r ∈ (iterRawRecordsFrom pageSize pages fuel st).processed,
            get_symbol r = some x := by
  intro fuel
  induction fuel with
  | zero => intro st x; simp [iterRawRecordsFrom]
  | succ fuel ih =>
    intro st x
    cases hp : pages (st.page_no + 1) with
    | success recs ph =>
      rw [iterFrom_eq_success pageSize pages fuel st hp]
      by_cases hstop : should_stop pageSize recs ph
          (processRecords (succState st) recs).1 0 = true
      · simp only [hstop, if_true]
        rw [processRecords_seen_mem]
        simp
      · simp only [hstop, if_false, Bool.false_eq_true]
        rw [ih, processRecords_seen_mem]
        simp only [succState_unique_symbols, List.mem_append]
        constructor
        · rintro ((hx | ⟨r2, h1, h2⟩) | ⟨r2, h1, h2⟩)
          · exact Or.inl hx
          · exact Or.inr ⟨r2, Or.inl h1, h2⟩
          · exact Or.inr ⟨r2, Or.inr h1, h2⟩
        · rintro (hx | ⟨r2, (h1 | h1), h2⟩)
          · exact Or.inl (Or.inl hx)
          · exact Or.inl (Or.inr ⟨r2, h1, h2⟩)
          · exact Or.inr ⟨r2, h1, h2⟩
    | failure isApi =>
      rw [iterFrom_eq_failure pageSize pages fuel st hp]
      by_cases hstop : st.consecutive_empty + 1 ≥ MAX_CONSECUTIVE_FAILURES
      · simp [hstop]
      · simp only [hstop, if_false]
        rw [ih]
        simp

/-- Every record yielded by the loop carries a key fresh on entry. -/
theorem iterFrom_out_fresh (pageSize : Nat) (pages : Nat → PageResult) :
    ∀ (fuel : Nat) (st : EngState) (x : RawRecord),
      x ∈ (iterRawRecordsFrom pageSize pages fuel st).outputs →
        ∃ k, get_symbol x = some k ∧ k ∉ st.unique_symbols := by
  intro fuel
  induction fuel with
  | zero => intro st x hx; simp [iterRawRecordsFrom] at hx
  | succ fuel ih =>
    intro st x hx
    cases hp : pages (st.page_no + 1) with
    | success recs ph =>
      rw [iterFrom_eq_success pageSize pages fuel st hp] at hx
      by_cases hstop : should_stop pageSize recs ph
          (processRecords (succState st) recs).1 0 = true
      · simp only [hstop, if_true] at hx
        obtain ⟨k, h1, h2⟩ := processRecords_out_fresh recs _ x hx
        exact ⟨k, h1, h2⟩
      · simp only [hstop, if_false, Bool.false_eq_true] at hx
        rw [List.mem_append] at hx
        rcases hx with hx | hx
        · obtain ⟨k, h1, h2⟩ := processRecords_out_fresh recs _ x hx
          exact ⟨k, h1, h2⟩
        · obtain ⟨k, h1, h2⟩ := ih _ x hx
          refine ⟨k, h1, fun hmem => h2 ?_⟩
          rw [processRecords_seen_mem]
          exact Or.inl hmem
    | failure isApi =>
      rw [iterFrom_eq_failure pageSize pages fuel st hp] at hx
      by_cases hstop : st.consecutive_empty + 1 ≥ MAX_CONSECUTIVE_FAILURES
      · simp [hstop] at hx
      · simp only [hstop, if_false] at hx
        obtain ⟨k, h1, h2⟩ := ih _ x hx
        exact ⟨k, h1, by simpa using h2⟩

/-- First-occurrence-wins dedup over a whole run: for any key not seen on
entry, the yielded records filtered to that key are exactly the first
record of the processed stream with that key, kept iff it validates. -/
theorem iterFrom_filter (pageSize : Nat) (pages : Nat → PageResult) :
    ∀ (fuel : Nat) (st : EngState) (k : JsonVal), k ∉ st.unique_symbols →
      ((iterRawRecordsFrom pageSize pages fuel st).outputs.filter (keyIs k))
        = firstValidOut k (iterRawRecordsFrom pageSize pages fuel st).processed := by
  intro fuel
  induction fuel with
  | zero => intro st k _; simp [iterRawRecordsFrom, firstValidOut]
  | succ fuel ih =>
    intro st k hk
    cases hp : pages (st.page_no + 1) with
    | success recs ph =>
      rw [iterFrom_eq_success pageSize pages fuel st hp]
      have hk1 : k ∉ (succState st).unique_symbols := hk
      by_cases hstop : should_stop pageSize recs ph
          (processRecords (succState st) recs).1 0 = true
      · simp only [hstop, if_true]
        exact processRecords_filter recs _ k hk1
      · simp only [hstop, if_false, Bool.false_eq_true]
        rw [List.filter_append, processRecords_filter recs _ k hk1]
        unfold firstValidOut
        rw [find?_append]
        cases hf : recs.find? (keyIs k) with
        | some r0 =>
          have hr0 := List.find?_some hf
          have hmem := List.mem_of_find?_eq_some hf
          rw [keyIs_eq_true] at hr0
          have hkseen : k ∈ (processRecords (succState st) recs).1.unique_symbols := by
            rw [processRecords_seen_mem]
            exact Or.inr ⟨r0, hmem, hr0⟩
          have htail : ((iterRawRecordsFrom pageSize pages fuel
              (processRecords (succState st) recs).1).outputs.filter (keyIs k)) = [] := by
            rw [List.filter_eq_nil_iff]
            intro x hx hkx
            obtain ⟨k2, h1, h2⟩ := iterFrom_out_fresh pageSize pages fuel _ x hx
            rw [keyIs_eq_true] at hkx
            rw [hkx] at h1
            exact h2 ((Option.some.inj h1) ▸ hkseen)
          rw [htail]
          simp [firstValidOut, hf]
        | none =>
          have hnone : ∀ r2 ∈ recs, get_symbol r2 ≠ some k := by
            intro r2 hr2 hg
            have := List.find?_eq_none.mp hf r2 hr2
            exact this (keyIs_eq_true.mpr hg)
          have hknot : k ∉ (processRecords (succState st) recs).1.unique_symbols := by
            rw [processRecords_seen_mem]
            rintro (h | ⟨r2, h1, h2⟩)
            · exact hk h
            · exact hnone r2 h1 h2
          rw [ih _ k hknot]
          simp [firstValidOut, hf]
    | failure isApi =>
      rw [iterFrom_eq_failure pageSize pages fuel st hp]
      by_cases hstop : st.consecutive_empty + 1 ≥ MAX_CONSECUTIVE_FAILURES
      · simp [hstop, firstValidOut]
      · simp only [hstop, if_false]
        exact ih _ k (by simpa using hk)
/-- Any page shorter than the configured page size satisfies a stop
condition, whatever the metadata and counters say. -/
theorem should_stop_of_short (pageSize : Nat) (recs : List RawRecord)
    (ph : PageHelp) (st : EngState) (ce : Nat)
    (h : recs.length < pageSize) :
    should_stop pageSize recs ph st ce = true := by
  simp [should_stop, h]

/-- The run invariant `total_records = |unique_symbols|` is preserved by
the whole loop. -/
theorem iterFrom_count (pageSize : Nat) (pages : Nat → PageResult) :
    ∀ (fuel : Nat) (st : EngState),
      st.total_records = st.unique_symbols.length →
      (iterRawRecordsFrom pageSize pages fuel st).state.total_records
        = (iterRawRecordsFrom pageSize pages fuel st).state.unique_symbols.length := by
  intro fuel
  induction fuel with
  | zero => intro st h; exact h
  | succ fuel ih =>
    intro st h
    cases hp : pages (st.page_no + 1) with
    | success recs ph =>
      rw [iterFrom_eq_success pageSize pages fuel st hp]
      have hproc := processRecords_count recs (succState st) h
      by_cases hstop : should_stop pageSize recs ph
          (processRecords (succState st) recs).1 0 = true
      · simp only [hstop, if_true]
        exact hproc
      · simp only [hstop, if_false, Bool.false_eq_true]
        exact ih _ hproc
    | failure isApi =>
      rw [iterFrom_eq_failure pageSize pages fuel st hp]
      have hfail : (failStep st isApi).total_records
          = (failStep st isApi).unique_symbols.length := by
        simpa using h
      by_cases hstop : st.consecutive_empty + 1 ≥ MAX_CONSECUTIVE_FAILURES
      · simp only [hstop, if_true]
        exact hfail
      · simp only [hstop, if_false]
        exact ih _ hfail

/-- A page result is a failure exactly when it is a `failure b`. -/
theorem isFail_iff (p : PageResult) : p.isFail = true ↔ ∃ b, p = .failure b := by
  cases p <;> simp [PageResult.isFail]

/-! ## Claim theorems -/

/-- C1 (amended): every later occurrence of an already-seen key is
silently skipped with the whole progress state (seen-set and counters)
unchanged; and over any run the yielded output contains, per key, exactly
the first record of the fetched stream carrying that key — provided that
first occurrence passes `RawSseRecord` validation — and no record at all
for a key whose first occurrence fails validation. -/
theorem dedup_first_valid_occurrence_wins :
    (∀ (st : EngState) (r : RawRecord) (k : JsonVal),
      get_symbol r = some k → k ∈ st.unique_symbols →
        processRecord st r = (st, none))
    ∧ (∀ (pageSize : Nat) (pages : Nat → PageResult) (fuel : Nat) (k : JsonVal),
      ((iterRawRecords pageSize pages fuel).outputs.filter (keyIs k))
        = firstValidOut k (iterRawRecords pageSize pages fuel).processed) :=
  ⟨fun _ _ _ h1 h2 => processRecord_dup h1 h2,
   fun pageSize pages fuel k =>
     iterFrom_filter pageSize pages fuel {} k (List.not_mem_nil k)⟩

/-- Witness for C1: a valid record whose key `600000` was already seen is
skipped and leaves the state untouched. -/
theorem dedup_first_valid_occurrence_wins_witness :
    processRecord c1Seen c1Dup = (c1Seen, none) :=
  dedup_first_valid_occurrence_wins.1 c1Seen c1Dup (.str "600000") rfl (by decide)

/-- Counterexample to C1 as stated: in the run over `c1Pages` the key
`600000` appears in two fetched records, yet the run yields no record at
all for it (the first occurrence fails validation and poisons the key),
not "exactly one". -/
theorem dedup_counterexample :
    ((iterRawRecords 25 c1Pages 5).processed.countP (keyIs (.str "600000"))) = 2 ∧
    ((iterRawRecords 25 c1Pages 5).outputs.filter (keyIs (.str "600000"))) = [] :=
  ⟨rfl, rfl⟩

/-- C10: when a record's key is fresh but the record fails validation,
the key is already marked seen and the total count already incremented
(and nothing is yielded); consequently over a whole run, if the first
occurrence of a key fails validation, no record for that key is ever
yielded — later valid occurrences are skipped as duplicates. -/
theorem invalid_first_occurrence_poisons_key :
    (∀ (st : EngState) (r : RawRecord) (k : JsonVal),
      get_symbol r = some k → k ∉ st.unique_symbols → validates r = false →
        (processRecord st r).2 = none ∧
        (processRecord st r).1.unique_symbols = k :: st.unique_symbols ∧
        (processRecord st r).1.total_records = st.total_records + 1)
    ∧ (∀ (pageSize : Nat) (pages : Nat → PageResult) (fuel : Nat)
        (k : JsonVal) (r : RawRecord),
      (iterRawRecords pageSize pages fuel).processed.find? (keyIs k) = some r →
      validates r = false →
        ((iterRawRecords pageSize pages fuel).outputs.filter (keyIs k)) = []) := by
  constructor
  · intro st r k h1 h2 h3
    obtain ⟨hs, ht, ho⟩ := processRecord_fresh st r k h1 h2
    refine ⟨?_, hs, ht⟩
    rw [ho, h3]
    simp
  · intro pageSize pages fuel k r hfind hval
    have hfilter := iterFrom_filter pageSize pages fuel {} k (List.not_mem_nil k)
    show (iterRawRecordsFrom pageSize pages fuel {}).outputs.filter (keyIs k) = []
    rw [hfilter]
    have hfind' : (iterRawRecordsFrom pageSize pages fuel {}).processed.find? (keyIs k)
        = some r := hfind
    unfold firstValidOut
    rw [hfind']
    simp [hval]

/-- Witness for C10: the invalid first record for key `600009` marks the
key seen and bumps the count without yielding, and the run over
`c10Pages` (which later sees a valid record for `600009`) yields nothing
for that key. -/
theorem invalid_first_occurrence_poisons_key_witness :
    ((processRecord {} c10Bad).2 = none ∧
     (processRecord {} c10Bad).1.unique_symbols = [.str "600009"] ∧
     (processRecord {} c10Bad).1.total_records = 1) ∧
    ((iterRawRecords 25 c10Pages 5).outputs.filter (keyIs (.str "600009"))) = [] :=
  ⟨invalid_first_occurrence_poisons_key.1 {} c10Bad (.str "600009") rfl (by decide) rfl,
   invalid_first_occurrence_poisons_key.2 25 c10Pages 5 (.str "600009") c10Bad rfl rfl⟩

/-- C2 (amended): from a state with a zeroed failure counter, exactly
three consecutive page failures halt the run at the third failed page
(for any remaining fuel); two consecutive failures followed by a
successful page reset the failure counter to zero, and the run continues
to the next page provided the successful page does not itself satisfy a
stop condition (here: full page, no pagination metadata, safety ceiling
not reached). -/
theorem consecutive_failure_circuit_breaker :
    (∀ (pageSize : Nat) (pages : Nat → PageResult) (fuel : Nat) (st : EngState),
      st.consecutive_empty = 0 →
      (pages (st.page_no + 1)).isFail = true →
      (pages (st.page_no + 2)).isFail = true →
      (pages (st.page_no + 3)).isFail = true →
        (iterRawRecordsFrom pageSize pages (fuel + 3) st).state.page_no
          = st.page_no + 3)
    ∧ (∀ (pageSize : Nat) (pages : Nat → PageResult) (fuel : Nat) (st : EngState)
        (recs : List RawRecord),
      st.consecutive_empty = 0 →
      (pages (st.page_no + 1)).isFail = true →
      (pages (st.page_no + 2)).isFail = true →
      pages (st.page_no + 3) = .success recs ⟨none, none, none⟩ →
      recs.length = pageSize →
      0 < pageSize →
      st.page_no + 3 < MAX_PAGES →
        (∃ st2 : EngState,
          st2.consecutive_empty = 0 ∧
          st2.page_no = st.page_no + 3 ∧
          (iterRawRecordsFrom pageSize pages (fuel + 4) st).state
            = (iterRawRecordsFrom pageSize pages (fuel + 1) st2).state) ∧
        st.page_no + 4 ≤ (iterRawRecordsFrom pageSize pages (fuel + 4) st).state.page_no) := by
  constructor
  · intro pageSize pages fuel st h0 hf1 hf2 hf3
    obtain ⟨b1, hp1⟩ := (isFail_iff _).mp hf1
    obtain ⟨b2, hp2⟩ := (isFail_iff _).mp hf2
    obtain ⟨b3, hp3⟩ := (isFail_iff _).mp hf3
    rw [show fuel + 3 = fuel + 2 + 1 from rfl,
      iterFrom_eq_failure pageSize pages (fuel + 2) st hp1,
      if_neg (by simp [h0, MAX_CONSECUTIVE_FAILURES])]
    have hp2' : pages ((failStep st b1).page_no + 1) = .failure b2 := by
      rw [failStep_page_no]; exact hp2
    rw [show fuel + 2 = fuel + 1 + 1 from rfl,
      iterFrom_eq_failure pageSize pages (fuel + 1) (failStep st b1) hp2',
      if_neg (by simp [h0, MAX_CONSECUTIVE_FAILURES])]
    have hp3' : pages ((failStep (failStep st b1) b2).page_no + 1) = .failure b3 := by
      simp only [failStep_page_no]; exact hp3
    rw [iterFrom_eq_failure pageSize pages fuel (failStep (failStep st b1) b2) hp3',
      if_pos (by simp [h0, MAX_CONSECUTIVE_FAILURES])]
    simp only [failStep_page_no]
  · intro pageSize pages fuel st recs h0 hf1 hf2 hp3 hlen hpos hceil
    obtain ⟨b1, hp1⟩ := (isFail_iff _).mp hf1
    obtain ⟨b2, hp2⟩ := (isFail_iff _).mp hf2
    rw [show fuel + 4 = fuel + 3 + 1 from rfl,
      iterFrom_eq_failure pageSize pages (fuel + 3) st hp1,
      if_neg (by simp [h0, MAX_CONSECUTIVE_FAILURES])]
    have hp2' : pages ((failStep st b1).page_no + 1) = .failure b2 := by
      rw [failStep_page_no]; exact hp2
    rw [show fuel + 3 = fuel + 2 + 1 from rfl,
      iterFrom_eq_failure pageSize pages (fuel + 2) (failStep st b1) hp2',
      if_neg (by simp [h0, MAX_CONSECUTIVE_FAILURES])]
    have hp3' : pages ((failStep (failStep st b1) b2).page_no + 1)
        = .success recs ⟨none, none, none⟩ := by
      simp only [failStep_page_no]; exact hp3
    rw [show fuel + 2 = fuel + 1 + 1 from rfl,
      iterFrom_eq_success pageSize pages (fuel + 1) (failStep (failStep st b1) b2) hp3']
    have hpage : (processRecords (succState (failStep (failStep st b1) b2)) recs).1.page_no
        = st.page_no + 3 := by
      simp [processRecords_page_no]
    have hne : recs.isEmpty = false := by
      cases recs with
      | nil => simp at hlen; omega
      | cons a l => rfl
    have hstop : should_stop pageSize recs ⟨none, none, none⟩
        (processRecords (succState (failStep (failStep st b1) b2)) recs).1 0 = false := by
      unfold should_stop
      rw [hpage, hne]
      have h1 : metaStopPages ⟨none, none, none⟩ (st.page_no + 3) = false := rfl
      have h2 : ∀ n, metaStopTotal ⟨none, none, none⟩ n = false := fun _ => rfl
      rw [h1, h2]
      simp only [Bool.false_or, Bool.or_eq_false_iff, decide_eq_false_iff_not, not_lt, not_le]
      refine ⟨⟨?_, ?_⟩, ?_⟩
      · omega
      · simp [MAX_CONSECUTIVE_FAILURES]
      · simpa [MAX_PAGES] using hceil
    rw [hstop]
    simp only [Bool.false_eq_true, if_false]
    constructor
    · refine ⟨(processRecords (succState (failStep (failStep st b1) b2)) recs).1,
        ?_, hpage, rfl⟩
      simp [processRecords_consecutive_empty]
    · have := iterFrom_page_succ pageSize pages fuel
        (processRecords (succState (failStep (failStep st b1) b2)) recs).1
      rw [hpage] at this
      exact this

/-- Witness for C2: over an all-fail page source the run from a fresh
state stops at page 3; over two failures followed by a full success page
(page size 1) the run reaches at least page 4. -/
theorem consecutive_failure_circuit_breaker_witness :
    (iterRawRecordsFrom 25 c2AllFail (4 + 3) {}).state.page_no = 3 ∧
    4 ≤ (iterRawRecordsFrom 1 c2Resume (2 + 4) {}).state.page_no :=
  ⟨consecutive_failure_circuit_breaker.1 25 c2AllFail 4 {} rfl rfl rfl rfl,
   (consecutive_failure_circuit_breaker.2 1 c2Resume 2 {} [c2Rec] rfl rfl rfl rfl rfl
     (by decide) (by decide)).2⟩

/-- Counterexample to C2 as stated: two page failures followed by one
successful (but empty) page do not let the run continue — the empty-page
stop condition ends it at page 3, so "the run continues to the next page"
fails for this successful page. -/
theorem circuit_breaker_counterexample :
    (iterRawRecords 25 c2Pages 10).state.page_no = 3 ∧
    ¬ (3 + 1 ≤ (iterRawRecords 25 c2Pages 10).state.page_no) :=
  ⟨rfl, by decide⟩

/-- C3: a successfully fetched page returning fewer raw records than the
configured page size is always the last page the engine fetches — after
processing it the loop stops and requests no further page (the final
`page_no` equals that page's number), regardless of the page metadata. -/
theorem short_page_is_last (pageSize : Nat) (pages : Nat → PageResult)
    (fuel : Nat) (st : EngState) (recs : List RawRecord) (ph : PageHelp)
    (hp : pages (st.page_no + 1) = .success recs ph)
    (hshort : recs.length < pageSize) :
    (iterRawRecordsFrom pageSize pages (fuel + 1) st).state.page_no
      = st.page_no + 1 := by
  rw [iterFrom_eq_success pageSize pages fuel st hp]
  rw [if_pos (should_stop_of_short pageSize recs ph _ 0 hshort)]
  simp [processRecords_page_no]

/-- Witness for C3: an empty page (0 < 25 records) whose metadata claims
99 pages and 99999 records still ends the run at page 1. -/
theorem short_page_is_last_witness :
    (iterRawRecordsFrom 25 c3Pages (5 + 1) {}).state.page_no = 1 :=
  short_page_is_last 25 c3Pages 5 {} [] ⟨some (.num 99), none, some (.num 99999)⟩
    rfl (by decide)

/-- C5 (code bug): with the two-page run `c5Pages` (page size 2, full
first page, short second page) the engine requests exactly 2 pages, but
the statistic the CLI writes into the manifest is
`_last_request_time > 0 and 1 or 0`, which evaluates to 1 for any
positive timestamp — not the page count. -/
theorem total_pages_stat_bug :
    (iterRawRecords 2 c5Pages 10).state.page_no = 2 ∧
    (cli_set_total_pages
        (build_manifest "Shanghai_Stocks" 0 {} ⟨[], 3⟩ 1 0 []) 12345).stats.total_pages = 1 ∧
    (cli_set_total_pages
        (build_manifest "Shanghai_Stocks" 0 {} ⟨[], 3⟩ 1 0 []) 12345).stats.total_pages
      ≠ (iterRawRecords 2 c5Pages 10).state.page_no := by
  refine ⟨by decide, by decide, by decide⟩

/-- C9: the manifest built by `build_manifest` always reports
`stats.total_records = stats.unique_records` (both are the writer's total
count), and in the engine `total_records` always equals the size of
`unique_symbols` (both are updated together, only when a new key is first
seen). -/
theorem total_records_eq_unique_records :
    (∀ (exchange : String) (asof : Nat) (cfg : SseConfigM) (w : WriterState)
        (d : ℚ) (fp : Nat) (errs : List ErrorSample),
      (build_manifest exchange asof cfg w d fp errs).stats.total_records
        = (build_manifest exchange asof cfg w d fp errs).stats.unique_records)
    ∧ (∀ (pageSize : Nat) (pages : Nat → PageResult) (fuel : Nat),
      (iterRawRecords pageSize pages fuel).state.total_records
        = (iterRawRecords pageSize pages fuel).state.unique_symbols.length) :=
  ⟨fun _ _ _ _ _ _ _ => rfl,
   fun pageSize pages fuel => iterFrom_count pageSize pages fuel {} rfl⟩

/-- C6 (amended): no cookie ever appears in a built manifest: the manifest
is entirely independent of the configured cookies (so no cookie value can
appear under any field name), and every header it echoes has a name that
does not lowercase to `"cookie"`.  (Non-cookie credential headers such as
`Authorization` are passed through — see the counterexample.) -/
theorem manifest_never_contains_cookies :
    (∀ (exchange : String) (asof : Nat) (cfg : SseConfigM) (w : WriterState)
        (d : ℚ) (fp : Nat) (errs : List ErrorSample)
        (cookies2 : List (String × String)),
      build_manifest exchange asof { cfg with cookies := cookies2 } w d fp errs
        = build_manifest exchange asof cfg w d fp errs)
    ∧ (∀ (exchange : String) (asof : Nat) (cfg : SseConfigM) (w : WriterState)
        (d : ℚ) (fp : Nat) (errs : List ErrorSample) (kv : String × String),
      kv ∈ (build_manifest exchange asof cfg w d fp errs).headers →
        pyLower kv.1 ≠ "cookie") :=
  ⟨fun _ _ _ _ _ _ _ _ => rfl,
   fun _ _ cfg _ _ _ _ kv hkv => by
    simp only [build_manifest, get_safe_headers] at hkv
    exact of_decide_eq_true (List.mem_filter.mp hkv).2⟩

/-- Witness for C6: a concrete safe header survives into the manifest and
its name does not lowercase to `"cookie"`. -/
theorem manifest_never_contains_cookies_witness :
    ("Accept", "application/json")
      ∈ (build_manifest "Shanghai_Stocks" 0 c6Safe {} 0 0 []).headers ∧
    pyLower ("Accept", "application/json").1 ≠ "cookie" :=
  ⟨by decide,
   manifest_never_contains_cookies.2 "Shanghai_Stocks" 0 c6Safe {} 0 0 []
     ("Accept", "application/json") (by decide)⟩

/-- Counterexample to C6 as stated: a credential-bearing `Authorization`
header value does appear in the built manifest — `get_safe_headers` only
strips headers named `cookie`. -/
theorem credential_header_in_manifest :
    ("Authorization", "Bearer secret-token")
      ∈ (build_manifest "Shanghai_Stocks" 0 c6Config {} 0 0 []).headers := by
  decide

/-- C7 (code bug): on a request whose every attempt fails transiently with
retry config `max_attempts = 3`, `backoff_multiplier = 3`,
`initial_delay = 1`, the client makes 3 attempts, propagates the final
transient failure, and sleeps 6 then 12 seconds
(`max(initial_delay, backoff_multiplier * 2^attempt)` — tenacity's
`wait_exponential(multiplier=..., min=...)`), while the claimed schedule
"start at `initial_delay`, multiply by `backoff_multiplier`" would sleep
1 then 3 seconds.  An HTTP-status failure is never retried. -/
theorem retry_backoff_schedule_eval :
    (make_request (fun _ => .transient) 3 3 1).attemptsMade = 3 ∧
    (make_request (fun _ => .transient) 3 3 1).result = .failed .transient ∧
    (make_request (fun _ => .transient) 3 3 1).delays = [6, 12] ∧
    [claimedBackoffDelay 3 1 1, claimedBackoffDelay 3 1 2] = [1, 3] ∧
    (make_request (fun _ => .transient) 3 3 1).delays
      ≠ [claimedBackoffDelay 3 1 1, claimedBackoffDelay 3 1 2] ∧
    (make_request (fun _ => .httpStatus) 3 3 1).attemptsMade = 1 ∧
    (make_request (fun _ => .httpStatus) 3 3 1).result = .failed .httpStatus := by
  have hw1 : tenacityWaitExponential 3 1 1 = 6 := by
    unfold tenacityWaitExponential
    rw [show (3 : ℚ) * 2 ^ 1 = 6 by norm_num]
    exact max_eq_right (by norm_num)
  have hw2 : tenacityWaitExponential 3 1 2 = 12 := by
    unfold tenacityWaitExponential
    rw [show (3 : ℚ) * 2 ^ 2 = 12 by norm_num]
    exact max_eq_right (by norm_num)
  have hd : (make_request (fun _ => .transient) 3 3 1).delays
      = [tenacityWaitExponential 3 1 1, tenacityWaitExponential 3 1 2] := rfl
  have hc1 : claimedBackoffDelay 3 1 1 = 1 := by
    unfold claimedBackoffDelay; norm_num
  have hc2 : claimedBackoffDelay 3 1 2 = 3 := by
    unfold claimedBackoffDelay; norm_num
  refine ⟨rfl, rfl, ?_, ?_, ?_, rfl, rfl⟩
  · rw [hd, hw1, hw2]
  · rw [hc1, hc2]
  · rw [hd, hw1, hw2, hc1, hc2]
    norm_num

/-! ## Lemmas about the normalizer -/

theorem strTruthy_iff (o : Option String) :
    strTruthy o = true ↔ ∃ t, o = some t ∧ t ≠ "" := by
  cases o <;> simp [strTruthy]

theorem notUsableSym_false_iff (o : Option String) :
    notUsableSym o = false ↔ ∃ s, o = some s ∧ s ≠ "" ∧ s ≠ "-" := by
  cases o with
  | none => simp [notUsableSym, strTruthy]
  | some s =>
    by_cases h1 : s = "" <;> by_cases h2 : s = "-" <;>
      simp [notUsableSym, strTruthy, h1, h2]

theorem find?_usable_option (o : Option String) (l : List String) :
    ((o.toList ++ l).find? fun s => decide (s ≠ "") && decide (s ≠ "-"))
      = if notUsableSym o then l.find? (fun s => decide (s ≠ "") && decide (s ≠ "-"))
        else o := by
  cases o with
  | none => simp [notUsableSym, strTruthy]
  | some s =>
    by_cases h1 : s = "" <;> by_cases h2 : s = "-" <;>
      simp [notUsableSym, strTruthy, h1, h2, List.find?_cons]

theorem find?_usable_single (o : Option String) :
    (o.toList.find? fun s => decide (s ≠ "") && decide (s ≠ "-"))
      = if notUsableSym o then none else o := by
  have h := find?_usable_option o []
  simpa using h

/-- `claimedSymbol` computes the same priority chain the normalizer runs. -/
theorem claimedSymbol_eq (raw : RawSseRecordM) :
    claimedSymbol raw
      = (if notUsableSym raw.A_STOCK_CODE then
           if notUsableSym raw.B_STOCK_CODE then
             if notUsableSym raw.COMPANY_CODE then none else raw.COMPANY_CODE
           else raw.B_STOCK_CODE
         else raw.A_STOCK_CODE) := by
  unfold claimedSymbol symbolCandidates
  rw [find?_usable_option, find?_usable_option, find?_usable_single]

theorem find?_truthy_option (o : Option String) (l : List String) :
    ((o.toList ++ l).find? fun s => decide (s ≠ ""))
      = if strTruthy o then o else l.find? (fun s => decide (s ≠ "")) := by
  cases o with
  | none => simp [strTruthy]
  | some s =>
    by_cases h1 : s = "" <;> simp [strTruthy, h1, List.find?_cons]

theorem find?_truthy_single (o : Option String) :
    (o.toList.find? fun s => decide (s ≠ ""))
      = if strTruthy o then o else none := by
  have h := find?_truthy_option o []
  simpa using h

/-- `claimedName` computes the same fallback chain the normalizer runs. -/
theorem claimedName_eq (raw : RawSseRecordM) (sym : String) :
    claimedName raw sym
      = ((if strTruthy raw.SEC_NAME_CN then raw.SEC_NAME_CN
          else if strTruthy raw.COMPANY_ABBR then raw.COMPANY_ABBR
          else if strTruthy raw.SEC_NAME_FULL then raw.SEC_NAME_FULL
          else none).getD sym) := by
  unfold claimedName nameCandidates
  rw [find?_truthy_option, find?_truthy_option, find?_truthy_single]

/-- The claimed name is never empty when the fallback symbol is not. -/
theorem claimedName_ne_empty (raw : RawSseRecordM) (sym : String)
    (hs : sym ≠ "") : claimedName raw sym ≠ "" := by
  unfold claimedName
  cases hf : (nameCandidates raw).find? (fun s => decide (s ≠ "")) with
  | none => simpa using hs
  | some n =>
    have := List.find?_some hf
    simp only [Bool.and_eq_true, decide_eq_true_eq] at this
    simpa using this

/-- The normalizer's display-name fallback chain equals the claim-side
"first non-empty candidate, else the symbol" selection. -/
theorem nameChain_eq (n1 n2 n3 : Option String) (s : String) :
    (if strTruthy (if strTruthy (if strTruthy n1 then n1 else n2)
          then (if strTruthy n1 then n1 else n2) else n3)
     then (if strTruthy (if strTruthy n1 then n1 else n2)
          then (if strTruthy n1 then n1 else n2) else n3).getD ""
     else (some s).getD "")
    = ((if strTruthy n1 then n1
        else if strTruthy n2 then n2
        else if strTruthy n3 then n3
        else none).getD s) := by
  by_cases h1 : strTruthy n1 = true
  · obtain ⟨t, ht, ht1⟩ := (strTruthy_iff _).mp h1
    have ht2 : strTruthy (some t) = true := by simp [strTruthy, ht1]
    simp [h1, ht, ht2, ht1]
  · by_cases h2 : strTruthy n2 = true
    · obtain ⟨t, ht, ht1⟩ := (strTruthy_iff _).mp h2
      have ht2 : strTruthy (some t) = true := by simp [strTruthy, ht1]
      simp [h1, h2, ht, ht2, ht1]
    · by_cases h3 : strTruthy n3 = true
      · obtain ⟨t, ht, ht1⟩ := (strTruthy_iff _).mp h3
        have ht2 : strTruthy (some t) = true := by simp [strTruthy, ht1]
        simp [h1, h2, h3, ht, ht2, ht1]
      · simp [h1, h2, h3]

/-- The normalizer's display name is never empty when the fallback symbol
is not. -/
theorem nameChain_ne (n1 n2 n3 : Option String) (s : String) (hs : s ≠ "") :
    (if strTruthy (if strTruthy (if strTruthy n1 then n1 else n2)
          then (if strTruthy n1 then n1 else n2) else n3)
     then (if strTruthy (if strTruthy n1 then n1 else n2)
          then (if strTruthy n1 then n1 else n2) else n3).getD ""
     else (some s).getD "") ≠ "" := by
  by_cases h1 : strTruthy n1 = true
  · obtain ⟨t, ht, ht1⟩ := (strTruthy_iff _).mp h1
    have ht2 : strTruthy (some t) = true := by simp [strTruthy, ht1]
    simp [h1, ht, ht2, ht1]
  · by_cases h2 : strTruthy n2 = true
    · obtain ⟨t, ht, ht1⟩ := (strTruthy_iff _).mp h2
      have ht2 : strTruthy (some t) = true := by simp [strTruthy, ht1]
      simp [h1, h2, ht, ht2, ht1]
    · by_cases h3 : strTruthy n3 = true
      · obtain ⟨t, ht, ht1⟩ := (strTruthy_iff _).mp h3
        have ht2 : strTruthy (some t) = true := by simp [strTruthy, ht1]
        simp [h1, h2, h3, ht, ht2, ht1]
      · simp [h1, h2, h3, hs]

/-- C4: `normalize_sse_record` returns a record whose symbol is the first
non-empty, non-`"-"` value among `A_STOCK_CODE`, `B_STOCK_CODE`,
`COMPANY_CODE` and whose display name is the first non-empty value among
`SEC_NAME_CN`, `COMPANY_ABBR`, `SEC_NAME_FULL` (falling back to the
symbol); if no symbol candidate is usable it raises instead of returning;
every returned record has a non-empty symbol and name. -/
theorem normalize_symbol_and_name :
    ∀ (raw : RawSseRecordM) (source_url : String) (asof : Nat)
      (stock_type : String) (include_raw : Bool),
      match claimedSymbol raw with
      | some s =>
        ∃ rec, normalize_sse_record raw source_url asof stock_type include_raw = .ok rec
          ∧ rec.symbol = s ∧ rec.name = claimedName raw s
          ∧ rec.symbol ≠ "" ∧ rec.name ≠ ""
      | none =>
        normalize_sse_record raw source_url asof stock_type include_raw
          = .error "Cannot extract symbol from record" := by
  intro raw su asof st ir
  rw [claimedSymbol_eq]
  by_cases hA : notUsableSym raw.A_STOCK_CODE = true
  · by_cases hB : notUsableSym raw.B_STOCK_CODE = true
    · by_cases hC : notUsableSym raw.COMPANY_CODE = true
      · simp only [hA, hB, hC, if_true]
        unfold normalize_sse_record
        simp only [hA, hB, hC, if_true]
      · have hC' : notUsableSym raw.COMPANY_CODE = false := by
          simpa using hC
        obtain ⟨s, hs, hs1, hs2⟩ := (notUsableSym_false_iff _).mp hC'
        have hCs : notUsableSym (some s) = false := hs ▸ hC'
        simp only [hA, hB, if_true, hs, hCs, Bool.false_eq_true, if_false]
        unfold normalize_sse_record
        simp only [hA, hB, if_true, hs, hCs, Bool.false_eq_true, if_false]
        refine ⟨_, rfl, by simp, ?_, by simpa using hs1, ?_⟩
        · rw [claimedName_eq]
          exact nameChain_eq raw.SEC_NAME_CN raw.COMPANY_ABBR raw.SEC_NAME_FULL s
        · exact nameChain_ne raw.SEC_NAME_CN raw.COMPANY_ABBR raw.SEC_NAME_FULL s hs1
    · have hB' : notUsableSym raw.B_STOCK_CODE = false := by
        simpa using hB
      obtain ⟨s, hs, hs1, hs2⟩ := (notUsableSym_false_iff _).mp hB'
      have hBs : notUsableSym (some s) = false := hs ▸ hB'
      simp only [hA, if_true, hs, hBs, Bool.false_eq_true, if_false]
      unfold normalize_sse_record
      simp only [hA, if_true, hs, hBs, Bool.false_eq_true, if_false]
      refine ⟨_, rfl, by simp, ?_, by simpa using hs1, ?_⟩
      · rw [claimedName_eq]
        exact nameChain_eq raw.SEC_NAME_CN raw.COMPANY_ABBR raw.SEC_NAME_FULL s
      · exact nameChain_ne raw.SEC_NAME_CN raw.COMPANY_ABBR raw.SEC_NAME_FULL s hs1
  · have hA' : notUsableSym raw.A_STOCK_CODE = false := by
      simpa using hA
    obtain ⟨s, hs, hs1, hs2⟩ := (notUsableSym_false_iff _).mp hA'
    have hAs : notUsableSym (some s) = false := hs ▸ hA'
    simp only [hs, hAs, Bool.false_eq_true, if_false]
    unfold normalize_sse_record
    simp only [hs, hAs, Bool.false_eq_true, if_false]
    refine ⟨_, rfl, by simp, ?_, by simpa using hs1, ?_⟩
    · rw [claimedName_eq]
      exact nameChain_eq raw.SEC_NAME_CN raw.COMPANY_ABBR raw.SEC_NAME_FULL s
    · exact nameChain_ne raw.SEC_NAME_CN raw.COMPANY_ABBR raw.SEC_NAME_FULL s hs1
/-! ## Lemmas about JSONP parsing -/

theorem pySlice500_length (s : String) : (pySlice500 s).length ≤ 500 := by
  show (s.toList.take 500).length ≤ 500
  exact List.length_take_le 500 s.toList

theorem leadsWith_iff (p : List Char) : ∀ l, leadsWith p l = true ↔ ∃ t, l = p ++ t := by
  induction p with
  | nil => intro l; simp [leadsWith]
  | cons a as ih =>
    intro l
    cases l with
    | nil => simp [leadsWith]
    | cons b bs =>
      simp only [leadsWith, Bool.and_eq_true, beq_iff_eq, ih, List.cons_append,
        List.cons.injEq]
      constructor
      · rintro ⟨rfl, t, rfl⟩
        exact ⟨t, rfl, rfl⟩
      · rintro ⟨t, rfl, rfl⟩
        exact ⟨rfl, t, rfl⟩

theorem dropSemi_decomp (l : List Char) :
    ∃ semi, (semi = [] ∨ semi = [';']) ∧ l = semi ++ dropSemi l := by
  unfold dropSemi
  split
  · exact ⟨[';'], Or.inr rfl, rfl⟩
  · exact ⟨[], Or.inl rfl, rfl⟩

theorem stripCloseParen_some {l g : List Char} (h : stripCloseParen l = some g) :
    l = ')' :: g.reverse := by
  unfold stripCloseParen at h
  split at h
  · injection h with h1
    subst h1
    simp
  · cases h

theorem tailMatch_some {r3 g : List Char} (h : tailMatch r3 = some g) :
    ∃ semi w3, (semi = [] ∨ semi = [';']) ∧ (∀ c ∈ w3, isWS c = true) ∧
      r3 = g ++ [')'] ++ semi ++ w3 := by
  unfold tailMatch at h
  obtain ⟨semi, hsemi, hdec⟩ := dropSemi_decomp (r3.reverse.dropWhile isWS)
  have hv := stripCloseParen_some h
  rw [hv] at hdec
  have hsplit := (List.takeWhile_append_dropWhile (p := isWS) (l := r3.reverse)).symm
  rw [hdec] at hsplit
  obtain ⟨T, hT⟩ : ∃ T, List.takeWhile isWS r3.reverse = T := ⟨_, rfl⟩
  rw [hT] at hsplit
  have hr3 := congrArg List.reverse hsplit
  rw [List.reverse_reverse] at hr3
  refine ⟨semi.reverse, T.reverse, ?_, ?_, ?_⟩
  · rcases hsemi with h' | h' <;> simp [h']
  · intro c hc
    rw [List.mem_reverse, ← hT] at hc
    exact List.mem_takeWhile_imp hc
  · rw [hr3]
    simp [List.reverse_append, List.append_assoc]

theorem afterCallback_some {rest g : List Char} (h : afterCallback rest = some g) :
    ∃ w1 w2 semi w3,
      (∀ c ∈ w1, isWS c = true) ∧ (∀ c ∈ w2, isWS c = true) ∧
      (semi = [] ∨ semi = [';']) ∧ (∀ c ∈ w3, isWS c = true) ∧
      rest = w1 ++ '(' :: (w2 ++ (g ++ [')'] ++ semi ++ w3)) := by
  unfold afterCallback at h
  split at h
  · rename_i r2 heq
    obtain ⟨semi, w3, hsemi, hw3, hr3⟩ := tailMatch_some h
    have hsplit2 := (List.takeWhile_append_dropWhile (p := isWS) (l := r2)).symm
    rw [hr3] at hsplit2
    have hsplit1 := (List.takeWhile_append_dropWhile (p := isWS) (l := rest)).symm
    rw [heq] at hsplit1
    obtain ⟨T1, hT1⟩ : ∃ T1, List.takeWhile isWS rest = T1 := ⟨_, rfl⟩
    obtain ⟨T2, hT2⟩ : ∃ T2, List.takeWhile isWS r2 = T2 := ⟨_, rfl⟩
    rw [hT1] at hsplit1
    rw [hT2] at hsplit2
    refine ⟨T1, T2, semi, w3,
      fun c hc => List.mem_takeWhile_imp (hT1 ▸ hc),
      fun c hc => List.mem_takeWhile_imp (hT2 ▸ hc), hsemi, hw3, ?_⟩
    rw [hsplit1, hsplit2]
  · cases h

/-- Soundness of the exact-pattern unwrap: a successful match means the
stripped body really had the form
`callback \s* ( \s* group \s* ) ;? \s*` — the wrapper is removed. -/
theorem exactExtract_some {cb text g : List Char}
    (h : exactExtract cb text = some g) :
    ∃ w1 w2 semi w3,
      (∀ c ∈ w1, isWS c = true) ∧ (∀ c ∈ w2, isWS c = true) ∧
      (semi = [] ∨ semi = [';']) ∧ (∀ c ∈ w3, isWS c = true) ∧
      text = cb ++ (w1 ++ '(' :: (w2 ++ (g ++ [')'] ++ semi ++ w3))) := by
  unfold exactExtract at h
  split at h
  · rename_i hlw
    obtain ⟨tl, rfl⟩ := (leadsWith_iff cb text).mp hlw
    rw [List.drop_left] at h
    obtain ⟨w1, w2, semi, w3, h1, h2, h3, h4, h5⟩ := afterCallback_some h
    exact ⟨w1, w2, semi, w3, h1, h2, h3, h4, by rw [h5]⟩
  · cases h

/-- C8: `_parse_jsonp` (i) fails fast with a `systemError` carrying the
≤500-character snippet whenever the stripped body contains a server-busy
marker — before any unwrap attempt, whatever the JSON parser or wrapper
shape; (ii) fails fast with `htmlError` when the body starts as an HTML
page; otherwise (iii) it unwraps by exact match on the generated callback
identifier and parses the interior as JSON, (iv) falls back to the
lenient any-identifier pattern only when the exact match fails, and
(v) raises a distinguishable `matchFailure` when both patterns fail; all
error snippets are truncated to at most 500 characters, and a successful
exact match really strips a `callback(...)` wrapper. -/
theorem parse_jsonp_contract :
    (∀ (α : Type) (loads : String → Option α) (text cb : String),
      (containsSub "System Error" (pyStrip text)
        || containsSub "系统繁忙" (pyStrip text)) = true →
        parse_jsonp loads text cb
          = .error (.systemError (pySlice500 (pyStrip text))))
    ∧ (∀ (α : Type) (loads : String → Option α) (text cb : String),
      (containsSub "System Error" (pyStrip text)
        || containsSub "系统繁忙" (pyStrip text)) = false →
      (pyStartsWith "<!" (pyStrip text) || pyStartsWith "<html" (pyStrip text)) = true →
        parse_jsonp loads text cb
          = .error (.htmlError (pySlice500 (pyStrip text))))
    ∧ (∀ (α : Type) (loads : String → Option α) (text cb : String) (g : List Char),
      (containsSub "System Error" (pyStrip text)
        || containsSub "系统繁忙" (pyStrip text)) = false →
      (pyStartsWith "<!" (pyStrip text) || pyStartsWith "<html" (pyStrip text)) = false →
      exactExtract cb.toList (pyStrip text).toList = some g →
        parse_jsonp loads text cb
          = (match loads (String.mk g) with
             | some j => .ok j
             | none => .error (.jsonFailure (pySlice500 (String.mk g)))))
    ∧ (∀ (α : Type) (loads : String → Option α) (text cb : String) (g : List Char),
      (containsSub "System Error" (pyStrip text)
        || containsSub "系统繁忙" (pyStrip text)) = false →
      (pyStartsWith "<!" (pyStrip text) || pyStartsWith "<html" (pyStrip text)) = false →
      exactExtract cb.toList (pyStrip text).toList = none →
      lenientExtract (pyStrip text).toList = some g →
        parse_jsonp loads text cb
          = (match loads (String.mk g) with
             | some j => .ok j
             | none => .error (.jsonFailure (pySlice500 (String.mk g)))))
    ∧ (∀ (α : Type) (loads : String → Option α) (text cb : String),
      (containsSub "System Error" (pyStrip text)
        || containsSub "系统繁忙" (pyStrip text)) = false →
      (pyStartsWith "<!" (pyStrip text) || pyStartsWith "<html" (pyStrip text)) = false →
      exactExtract cb.toList (pyStrip text).toList = none →
      lenientExtract (pyStrip text).toList = none →
        parse_jsonp loads text cb
          = .error (.matchFailure (pySlice500 (pyStrip text))))
    ∧ (∀ (α : Type) (loads : String → Option α) (text cb : String) (e : JsonpError),
      parse_jsonp loads text cb = .error e → e.snippet.length ≤ 500)
    ∧ (∀ (cb text : String) (g : List Char),
      exactExtract cb.toList text.toList = some g →
        ∃ w1 w2 semi w3,
          (∀ c ∈ w1, isWS c = true) ∧ (∀ c ∈ w2, isWS c = true) ∧
          (semi = [] ∨ semi = [';']) ∧ (∀ c ∈ w3, isWS c = true) ∧
          text.toList = cb.toList ++ (w1 ++ '(' :: (w2 ++ (g ++ [')'] ++ semi ++ w3)))) := by
  refine ⟨?_, ?_, ?_, ?_, ?_, ?_, ?_⟩
  · intro α loads text cb hm
    simp only [parse_jsonp]
    rw [hm]
    rfl
  · intro α loads text cb hm hh
    simp only [parse_jsonp]
    rw [hm, hh]
    rfl
  · intro α loads text cb g hm hh hex
    simp only [parse_jsonp]
    rw [hm, hh, hex]
    rfl
  · intro α loads text cb g hm hh hex hlen
    simp only [parse_jsonp]
    rw [hm, hh, hex, hlen]
    rfl
  · intro α loads text cb hm hh hex hlen
    simp only [parse_jsonp]
    rw [hm, hh, hex, hlen]
    rfl
  · intro α loads text cb e h
    simp only [parse_jsonp] at h
    split at h
    · injection h with h1
      subst h1
      exact pySlice500_length _
    · split at h
      · injection h with h1
        subst h1
        exact pySlice500_length _
      · cases hex : exactExtract cb.toList (pyStrip text).toList with
        | some g =>
          rw [hex] at h
          have h2 : (match loads (String.mk g) with
              | some j => (Except.ok j : Except JsonpError α)
              | none => Except.error (.jsonFailure (pySlice500 (String.mk g))))
              = .error e := h
          cases hload : loads (String.mk g) with
          | some j =>
            rw [hload] at h2
            have h3 : (Except.ok j : Except JsonpError α) = .error e := h2
            exact Except.noConfusion h3
          | none =>
            rw [hload] at h2
            have h3 : (Except.error (.jsonFailure (pySlice500 (String.mk g)))
                : Except JsonpError α) = .error e := h2
            injection h3 with h1
            subst h1
            exact pySlice500_length _
        | none =>
          rw [hex] at h
          cases hlen : lenientExtract (pyStrip text).toList with
          | some g =>
            rw [hlen] at h
            have h2 : (match loads (String.mk g) with
                | some j => (Except.ok j : Except JsonpError α)
                | none => Except.error (.jsonFailure (pySlice500 (String.mk g))))
                = .error e := h
            cases hload : loads (String.mk g) with
            | some j =>
              rw [hload] at h2
              have h3 : (Except.ok j : Except JsonpError α) = .error e := h2
              exact Except.noConfusion h3
            | none =>
              rw [hload] at h2
              have h3 : (Except.error (.jsonFailure (pySlice500 (String.mk g)))
                  : Except JsonpError α) = .error e := h2
              injection h3 with h1
              subst h1
              exact pySlice500_length _
          | none =>
            rw [hlen] at h
            have h2 : (Except.error (.matchFailure (pySlice500 (pyStrip text)))
                : Except JsonpError α) = .error e := h
            injection h2 with h1
            subst h1
            exact pySlice500_length _
  · intro cb text g h
    exact exactExtract_some h

/-- Witness for C8: a real JSONP body with the exact callback wrapper is
unwrapped and its interior parsed. -/
theorem parse_jsonp_contract_witness :
    parse_jsonp (fun s => if s = "[1]" then some 1 else none)
      "jsonpCallback12345678([1]);" "jsonpCallback12345678" = Except.ok 1 := by
  have h := parse_jsonp_contract.2.2.1 Nat (fun s => if s = "[1]" then some 1 else none)
    "jsonpCallback12345678([1]);" "jsonpCallback12345678" ['[', '1', ']']
    (by decide) (by decide) (by decide)
  rw [h]
  rfl

end StockBot
